import Mathlib

/-
  Shallow embedding of the tracker core of `src/modules/tracker.py`
  (class `Tracker`): timer stop/tick logic, task progress accounting,
  reminder scheduling, id assignment and load-time validation.

  Timestamps and durations of the timer subsystem are modelled as
  integers of seconds on the local time line.  Python `datetime`
  arithmetic is exact (microsecond resolution); restricted to
  whole-second instants, which every claim is about, it is exactly
  integer arithmetic.  A local calendar day is the half-open interval
  from d * 86400 to (d + 1) * 86400; `dayOf` is the `datetime.date()`
  projection and `nextMidnight` is
  `datetime.combine(cur_start.date() + timedelta(days=1), datetime.min.time())`
  from `stop_timer`.  Task progress (`done`, `units`) and reminder
  times keep the full rational value range of the Python floats.
-/

namespace Tracker

/-- Local calendar day of a timestamp; integer division `/` on `ℤ` is
Euclidean, which for the positive constant 86400 is floor division. -/
def dayOf (t : ℤ) : ℤ := t / 86400

/-- The local midnight that ends the day of `t`. -/
def nextMidnight (t : ℤ) : ℤ := (dayOf t + 1) * 86400

/-- One record of `self.time_logs`: fields `task_id`, `start`, `end`
(named `stop` here since `end` is reserved), `duration`. -/
structure TimeLogEntry where
  task_id : ℤ
  start : ℤ
  stop : ℤ
  duration : ℤ
deriving DecidableEq

/-- The `self.active_timer` dict: fields `task_id`, `start_time`
(a timestamp string or `None`), `elapsed` (accumulated seconds). -/
structure ActiveTimer where
  task_id : ℤ
  start_time : Option ℤ
  elapsed : ℤ
deriving DecidableEq

/-- The `while cur_start.date() < end_dt.date()` loop of `stop_timer`,
with explicit fuel (the loop advances `cur_start` to the next midnight
each iteration, so `(dayOf endDt - dayOf cur).toNat` steps suffice).
Returns the per-day entries together with the final `cur_start` and
`remaining` values. -/
def split_days (tid endDt : ℤ) : ℕ → ℤ → ℤ → List TimeLogEntry × ℤ × ℤ
  | 0, cur, remaining => ([], cur, remaining)
  | fuel+1, cur, remaining =>
    if dayOf cur < dayOf endDt then
      (⟨tid, cur, nextMidnight cur, nextMidnight cur - cur⟩ ::
          (split_days tid endDt fuel (nextMidnight cur)
            (remaining - (nextMidnight cur - cur))).1,
        (split_days tid endDt fuel (nextMidnight cur)
          (remaining - (nextMidnight cur - cur))).2)
    else ([], cur, remaining)

/-- `start_dt` of `stop_timer`: the stored `start_time`, or
`datetime.now() - timedelta(seconds=elapsed)` when absent. -/
def stop_start_dt (now : ℤ) (tmr : ActiveTimer) : ℤ :=
  match tmr.start_time with
  | some s => s
  | none => now - max 0 tmr.elapsed

/-- `elapsed` of `stop_timer` before clamping:
`max(0, elapsed) + max(0, now - start_dt)` when running. -/
def stop_elapsed (now : ℤ) (tmr : ActiveTimer) : ℤ :=
  match tmr.start_time with
  | some s => max 0 tmr.elapsed + max 0 (now - s)
  | none => max 0 tmr.elapsed

/-- `end_dt = start_dt + timedelta(seconds=max(0, elapsed))` of
`stop_timer`; note the source computes it from the un-clamped elapsed. -/
def stop_end_dt (now : ℤ) (tmr : ActiveTimer) : ℤ :=
  stop_start_dt now tmr + max 0 (stop_elapsed now tmr)

/-- `max_session_sec = 16 * 3600` of `stop_timer`. -/
def max_session_sec : ℤ := 16 * 3600

/-- The list of time-log entries appended by one call of `stop_timer`
(`src/modules/tracker.py` lines 513-552): elapsed is clamped to
`max_session_sec`, sub-second sessions are dropped, the session is split
at local midnights, and a final partial-day entry holding the remaining
duration is appended when that remainder is positive. -/
def stop_timer_logs (now : ℤ) (tmr : ActiveTimer) : List TimeLogEntry :=
  let elapsedC := min (stop_elapsed now tmr) max_session_sec
  let res := split_days tmr.task_id (stop_end_dt now tmr)
    (dayOf (stop_end_dt now tmr) - dayOf (stop_start_dt now tmr)).toNat
    (stop_start_dt now tmr) (max 0 elapsedC)
  if 1 < elapsedC then
    if 0 < res.2.2 then
      res.1 ++ [⟨tmr.task_id, res.2.1, stop_end_dt now tmr, res.2.2⟩]
    else res.1
  else []

/-- Sum of the durations of a list of time-log entries. -/
def total_duration (l : List TimeLogEntry) : ℤ :=
  (l.map TimeLogEntry.duration).sum

/-- A time-log entry that does not span two local calendar days: it runs
forward and ends no later than the midnight closing its start day. -/
def entry_within_day (e : TimeLogEntry) : Prop :=
  e.start ≤ e.stop ∧ e.stop ≤ (dayOf e.start + 1) * 86400

/-- State read and written by the `tick` callback of `start_timer_loop`:
the active timer plus `self.last_tick_time`. -/
structure TimerTickState where
  timer : ActiveTimer
  last_tick : Option ℤ
deriving DecidableEq

/-- One execution of the `tick` closure of `start_timer_loop`
(`src/modules/tracker.py` lines 574-612), returning the new state and
the elapsed value written to the display.  When the wall-clock gap since
`last_tick_time` exceeds the 3600-second idle cap and a start timestamp
is present, `start_time` is moved to `now - 3600` and elapsed is
recomputed as the accumulated value plus the cap. -/
def tick (now : ℤ) (st : TimerTickState) : TimerTickState × ℤ :=
  let elapsedA : ℤ := st.timer.elapsed +
    (match st.timer.start_time with
     | some s => now - s
     | none => 0)
  match st.last_tick with
  | none => ({ st with last_tick := some now }, elapsedA)
  | some l =>
    if 3600 < now - l then
      match st.timer.start_time with
      | some _ =>
        ({ timer := { st.timer with start_time := some (now - 3600) },
           last_tick := some now },
         st.timer.elapsed + 3600)
      | none => ({ st with last_tick := some now }, elapsedA)
    else ({ st with last_tick := some now }, elapsedA)

/-- One record of `self.tasks`: fields `id`, `name`, `units`, `done`,
`created`, `archived`, `is_today`.  `units` and `done` are Python
floats, modelled as rationals. -/
structure Task where
  id : ℤ
  name : String
  units : ℚ
  done : ℚ
  created : ℤ
  archived : Bool
  is_today : Bool
deriving DecidableEq

/-- `inc_task` (`src/modules/tracker.py` lines 342-372): the first task
matching `tid` gets `done = min(done + 1, units)`; the returned flag is
the `completed` variable, true exactly when the updated `done` satisfies
`done >= units`, in which case a completion notification is sent. -/
def inc_task (tid : ℤ) : List Task → List Task × Bool
  | [] => ([], false)
  | t :: ts =>
    if t.id = tid then
      ({ t with done := min (t.done + 1) t.units } :: ts,
        decide (t.units ≤ min (t.done + 1) t.units))
    else
      ((t :: (inc_task tid ts).1), (inc_task tid ts).2)

/-- `dec_task` (lines 374-379): the first task matching `tid` gets
`done = max(done - 1, 0)`. -/
def dec_task (tid : ℤ) : List Task → List Task
  | [] => []
  | t :: ts =>
    if t.id = tid then { t with done := max (t.done - 1) 0 } :: ts
    else t :: dec_task tid ts

/-- A user command on the task list: one `inc_task` or `dec_task` call. -/
inductive TaskOp where
  | inc : ℤ → TaskOp
  | dec : ℤ → TaskOp
deriving DecidableEq

/-- Effect of one task command on the task list. -/
def apply_task_op (ts : List Task) : TaskOp → List Task
  | .inc tid => (inc_task tid ts).1
  | .dec tid => dec_task tid ts

/-- Effect of a finite sequence of task commands. -/
def apply_task_ops (ops : List TaskOp) (ts : List Task) : List Task :=
  ops.foldl apply_task_op ts

/-- The documented task invariant: `0 ≤ done ≤ units`. -/
def task_inv (t : Task) : Prop := 0 ≤ t.done ∧ t.done ≤ t.units

/-- One record of `self.reminders`: fields `id`, `name`, `time_hours`,
`created`, `enabled`, `snoozed_until`, `sound`, `is_relative`,
`next_fire_at`.  Reminder times are rationals of seconds on the local
time line since `time_hours` is fractional (e.g. 0.25 hours). -/
structure Reminder where
  id : ℤ
  name : String
  time_hours : ℚ
  created : ℚ
  enabled : Bool
  snoozed_until : Option ℚ
  sound : Bool
  is_relative : Bool
  next_fire_at : Option ℚ
deriving DecidableEq

/-- Local midnight at or before a rational timestamp, as in
`datetime.combine(now.date(), datetime.min.time())`. -/
def midnight_of (t : ℚ) : ℚ := ((⌊t / 86400⌋ : ℤ) : ℚ) * 86400

/-- `schedule_reminder` (`src/modules/tracker.py` lines 866-924), state
effect on the reminder record.  Disabled reminders are left untouched.
A `snoozed_until` in the future wins, else a stored `next_fire_at` still
in the future wins, else the base target: `now + time_hours` hours for a
relative reminder, today (rolled to tomorrow if past) at that time of
day otherwise, and in this last case `snoozed_until` is cleared.  The
chosen target is persisted in `next_fire_at`. -/
def schedule_reminder (now : ℚ) (r : Reminder) : Reminder :=
  if r.enabled = false then r
  else
    let stored : Option ℚ :=
      match r.next_fire_at with
      | some n => if now < n then some n else none
      | none => none
    let base : ℚ :=
      if r.is_relative then now + r.time_hours * 3600
      else
        if midnight_of now + r.time_hours * 3600 ≤ now then
          midnight_of now + r.time_hours * 3600 + 86400
        else midnight_of now + r.time_hours * 3600
    match r.snoozed_until with
    | some sd =>
      if now < sd then { r with next_fire_at := some sd }
      else
        match stored with
        | some tg => { r with next_fire_at := some tg }
        | none => { r with snoozed_until := none, next_fire_at := some base }
    | none =>
      match stored with
      | some tg => { r with next_fire_at := some tg }
      | none => { r with snoozed_until := none, next_fire_at := some base }

/-- Id chosen by `add_reminder` (line 796):
`max([r['id'] for r in self.reminders], default=0) + 1`; Python `max`
uses the default only for the empty list. -/
def new_reminder_id (rs : List Reminder) : ℤ :=
  (match rs.map Reminder.id with
   | [] => 0
   | x :: xs => xs.foldl max x) + 1

/-- `add_reminder` (lines 775-812), state effect on the reminder list:
appends a record with the id above, the parsed hours, `enabled = True`,
no snooze and no stored fire time. -/
def add_reminder (nm : String) (hours : ℚ) (isRel : Bool) (now : ℚ)
    (rs : List Reminder) : List Reminder :=
  rs ++ [⟨new_reminder_id rs, nm, hours, now, true, none, false, isRel, none⟩]

/-- `del_reminder` (lines 814-819): removes every reminder with the
given id. -/
def del_reminder (rid : ℤ) (rs : List Reminder) : List Reminder :=
  rs.filter (fun r => r.id ≠ rid)

/-- The id-relevant slice of the tracker state: `self.tasks` and
`self.next_task_id`. -/
structure RegistryState where
  tasks : List Task
  next_task_id : ℤ
deriving DecidableEq

/-- `add_task` (`src/modules/tracker.py` lines 315-340), state effect:
the new task receives the current `next_task_id`, which is then
incremented and never decremented elsewhere. -/
def add_task (nm : String) (units : ℚ) (now : ℤ)
    (st : RegistryState) : RegistryState :=
  { tasks := st.tasks ++ [⟨st.next_task_id, nm, units, 0, now, false, true⟩],
    next_task_id := st.next_task_id + 1 }

/-- `del_task` (lines 388-398), id-relevant effect: the task list is
filtered; `next_task_id` is untouched. -/
def del_task (tid : ℤ) (st : RegistryState) : RegistryState :=
  { st with tasks := st.tasks.filter (fun t => t.id ≠ tid) }

/-- A save/load cycle as far as ids are concerned:  `save_state` writes
`tasks` and `next_task_id` verbatim; `_apply_loaded_state` (lines
1286-1317) keeps every saved task (each has all required fields) and
restores `next_task_id`, raising it to `max(next_task_id, max_id + 1)`
when the task list is nonempty. -/
def save_load (st : RegistryState) : RegistryState :=
  match st.tasks with
  | [] => st
  | t :: ts =>
    { st with
      next_task_id := max st.next_task_id ((ts.foldl (fun m x => max m x.id) t.id) + 1) }

/-- A registry command: add, delete, or a save/load cycle. -/
inductive RegOp where
  | add : String → ℚ → ℤ → RegOp
  | del : ℤ → RegOp
  | saveload : RegOp

/-- Registry state paired with the history of all ids `add_task` ever
assigned, in assignment order. -/
structure RegRun where
  st : RegistryState
  assigned : List ℤ

/-- One registry command, recording the id handed out by `add_task`. -/
def reg_step (r : RegRun) : RegOp → RegRun
  | .add nm units now =>
    { st := add_task nm units now r.st,
      assigned := r.assigned ++ [r.st.next_task_id] }
  | .del tid => { r with st := del_task tid r.st }
  | .saveload => { r with st := save_load r.st }

/-- Run a command sequence from the initial state of `Tracker.__init__`:
no tasks, `next_task_id = 1`, nothing assigned yet. -/
def reg_run (ops : List RegOp) : RegRun :=
  ops.foldl reg_step ⟨⟨[], 1⟩, []⟩

/-- Invariant tying the assigned-id history to the state: all past ids
and all live task ids are below `next_task_id`, and the history is
strictly increasing. -/
def reg_inv (r : RegRun) : Prop :=
  r.assigned.Pairwise (· < ·) ∧
  (∀ a ∈ r.assigned, a < r.st.next_task_id) ∧
  (∀ t ∈ r.st.tasks, t.id < r.st.next_task_id)

/-- A task record as it appears in a state document before validation:
every field may be missing.  `is_today` models the `is_today` key. -/
structure RawTask where
  id : Option ℤ
  name : Option String
  units : Option ℚ
  done : Option ℚ
  archived : Option Bool
  is_today : Option Bool
deriving DecidableEq

/-- The check of `_apply_loaded_state` for one task record: only the
PRESENCE of the required keys `id`, `name`, `units`, `done` is tested
(`{'id', 'name', 'units', 'done'} <= set(t.keys())`); values are never
inspected. -/
def raw_task_valid (t : RawTask) : Bool :=
  t.id.isSome && t.name.isSome && t.units.isSome && t.done.isSome

/-- The `setdefault` calls for one accepted task record: `archived`
defaults to false and `is_today` to true, present values are kept. -/
def raw_task_defaults (t : RawTask) : RawTask :=
  { t with archived := some (t.archived.getD false),
           is_today := some (t.is_today.getD true) }

/-- The task loop of `_apply_loaded_state` (lines 1290-1295): each
record is validated individually; valid records get their defaults and
are kept, invalid ones are dropped. -/
def load_tasks : List RawTask → List RawTask
  | [] => []
  | t :: ts =>
    if raw_task_valid t then raw_task_defaults t :: load_tasks ts
    else load_tasks ts

/-- A raw time-log record; required keys are `task_id`, `start`,
`duration` (line 1298). -/
structure RawLog where
  task_id : Option ℤ
  start : Option ℤ
  stop : Option ℤ
  duration : Option ℤ
deriving DecidableEq

/-- Presence check for one time-log record. -/
def raw_log_valid (l : RawLog) : Bool :=
  l.task_id.isSome && l.start.isSome && l.duration.isSome

/-- The time-log loop of `_apply_loaded_state` (lines 1296-1299). -/
def load_logs : List RawLog → List RawLog
  | [] => []
  | l :: ls => if raw_log_valid l then l :: load_logs ls else load_logs ls

/-- A raw reminder record; required keys are `id`, `name`, `time_hours`
(line 1302), the rest defaulted by `setdefault`. -/
structure RawReminder where
  id : Option ℤ
  name : Option String
  time_hours : Option ℚ
  enabled : Option Bool
  snoozed_until : Option (Option ℚ)
  sound : Option Bool
  is_relative : Option Bool
  next_fire_at : Option (Option ℚ)
deriving DecidableEq

/-- Presence check for one reminder record. -/
def raw_reminder_valid (r : RawReminder) : Bool :=
  r.id.isSome && r.name.isSome && r.time_hours.isSome

/-- The `setdefault` calls for one accepted reminder record. -/
def raw_reminder_defaults (r : RawReminder) : RawReminder :=
  { r with enabled := some (r.enabled.getD true),
           snoozed_until := some (r.snoozed_until.getD none),
           sound := some (r.sound.getD false),
           is_relative := some (r.is_relative.getD false),
           next_fire_at := some (r.next_fire_at.getD none) }

/-- The reminder loop of `_apply_loaded_state` (lines 1300-1308). -/
def load_reminders : List RawReminder → List RawReminder
  | [] => []
  | r :: rs =>
    if raw_reminder_valid r then raw_reminder_defaults r :: load_reminders rs
    else load_reminders rs

/-- The three record collections of a state document. -/
structure RawDoc where
  tasks : List RawTask
  time_logs : List RawLog
  reminders : List RawReminder
deriving DecidableEq

/-- The collection part of `_apply_loaded_state` (lines 1286-1311):
each collection is validated record by record, independently of the
others. -/
def apply_loaded_state (d : RawDoc) : RawDoc :=
  { tasks := load_tasks d.tasks,
    time_logs := load_logs d.time_logs,
    reminders := load_reminders d.reminders }

/- ===================  proofs  =================== -/

lemma lt_nextMidnight (t : ℤ) : t < nextMidnight t := by
  unfold nextMidnight dayOf; omega

lemma dayOf_mul_le (t : ℤ) : dayOf t * 86400 ≤ t := by
  unfold dayOf; omega

lemma dayOf_mono {a b : ℤ} (h : a ≤ b) : dayOf a ≤ dayOf b := by
  unfold dayOf; omega

lemma dayOf_nextMidnight (t : ℤ) : dayOf (nextMidnight t) = dayOf t + 1 := by
  unfold nextMidnight dayOf; omega

lemma split_days_spec (tid endDt : ℤ) (fuel : ℕ) :
    ∀ cur remaining : ℤ, cur ≤ endDt →
      (dayOf endDt - dayOf cur).toNat ≤ fuel →
      (∀ e ∈ (split_days tid endDt fuel cur remaining).1, entry_within_day e) ∧
      (split_days tid endDt fuel cur remaining).2.1 ≤ endDt ∧
      dayOf (split_days tid endDt fuel cur remaining).2.1 = dayOf endDt := by
  induction fuel with
  | zero =>
    intro cur remaining hle hfuel
    have hmono := dayOf_mono hle
    have hday : dayOf cur = dayOf endDt := by omega
    simp [split_days]
    exact ⟨hle, hday⟩
  | succ n ih =>
    intro cur remaining hle hfuel
    by_cases hcond : dayOf cur < dayOf endDt
    · have hnm : nextMidnight cur ≤ endDt := by
        have h1 := dayOf_mul_le endDt
        have h2 : (dayOf cur + 1) * 86400 ≤ dayOf endDt * 86400 := by nlinarith
        unfold nextMidnight
        omega
      have hfuel' : (dayOf endDt - dayOf (nextMidnight cur)).toNat ≤ n := by
        rw [dayOf_nextMidnight]; omega
      have hrec := ih (nextMidnight cur) (remaining - (nextMidnight cur - cur)) hnm hfuel'
      simp only [split_days, if_pos hcond]
      refine ⟨?_, hrec.2.1, hrec.2.2⟩
      intro e he
      rcases List.mem_cons.mp he with h | h
      · subst h
        exact ⟨le_of_lt (lt_nextMidnight cur), le_of_eq rfl⟩
      · exact hrec.1 e h
    · have hmono := dayOf_mono hle
      have hday : dayOf cur = dayOf endDt := by omega
      simp only [split_days, if_neg hcond]
      exact ⟨by simp, hle, hday⟩

lemma stop_start_le_end (now : ℤ) (tmr : ActiveTimer) :
    stop_start_dt now tmr ≤ stop_end_dt now tmr := by
  unfold stop_end_dt
  have : (0:ℤ) ≤ max 0 (stop_elapsed now tmr) := le_max_left 0 _
  omega

lemma stop_timer_logs_within (now : ℤ) (tmr : ActiveTimer) :
    ∀ e ∈ stop_timer_logs now tmr, entry_within_day e := by
  intro e he
  unfold stop_timer_logs at he
  set endDt := stop_end_dt now tmr with hend
  set startDt := stop_start_dt now tmr with hstart
  have hspec := split_days_spec tmr.task_id endDt
    (dayOf endDt - dayOf startDt).toNat startDt
    (max 0 (min (stop_elapsed now tmr) max_session_sec))
    (stop_start_le_end now tmr) (le_refl _)
  simp only at he
  split at he
  · split at he
    · rcases List.mem_append.mp he with h | h
      · exact hspec.1 e h
      · have heq := List.mem_singleton.mp h
        subst heq
        refine ⟨hspec.2.1, ?_⟩
        simp only
        have hday := hspec.2.2
        have hlt := lt_nextMidnight endDt
        unfold nextMidnight at hlt
        rw [hday]
        omega
    · exact hspec.1 e he
  · simp at he

/-- C1: the claim is violated by the code.  For a timer started at local
midnight (timestamp 0) and stopped 100000 seconds later, `stop_timer`
clamps `elapsed` to 57600 but computes `end_dt` from the un-clamped
elapsed, so the day-splitting loop still emits one full-day entry of
86400 seconds: the total duration logged by this single stop is 86400,
exceeding the claimed 57600-second cap. -/
theorem stop_timer_cap_violated :
    total_duration (stop_timer_logs 100000 ⟨1, some 0, 0⟩) = 86400 ∧
    (57600 : ℤ) < 86400 := by
  constructor
  · decide
  · decide

/-- C2: a session from 23:50:00 (timestamp 85800 of day 0) to 00:10:00
of the next day (timestamp 87000), 1200 seconds elapsed, is logged by
`stop_timer` as exactly two entries of 600 seconds each, the first
ending exactly at local midnight (86400) and the second starting exactly
there; and in general every entry appended by `stop_timer` lies within a
single local calendar day. -/
theorem stop_timer_midnight_split :
    stop_timer_logs 87000 ⟨1, some 85800, 0⟩ =
      [⟨1, 85800, 86400, 600⟩, ⟨1, 86400, 87000, 600⟩] ∧
    ∀ (now : ℤ) (tmr : ActiveTimer),
      ∀ e ∈ stop_timer_logs now tmr, entry_within_day e := by
  constructor
  · decide
  · exact stop_timer_logs_within

/-- C3: a tick that observes a 7200-second wall-clock gap since the
previous tick credits at most 3600 seconds of it.  With accumulated
elapsed `acc`, running since `s`, previous tick at `l` (the elapsed
shown then was `acc + (l - s)`), the clamped tick displays exactly
`acc + 3600`, which exceeds the previous display by at most 3600, and
the start timestamp is advanced to `now - 3600`, strictly past the old
start, so the excess is discarded. -/
theorem tick_idle_gap_clamped (tid acc s l now : ℤ)
    (hsl : s ≤ l) (hgap : now - l = 7200) :
    (tick now ⟨⟨tid, some s, acc⟩, some l⟩).2 = acc + 3600 ∧
    (tick now ⟨⟨tid, some s, acc⟩, some l⟩).2 ≤ (acc + (l - s)) + 3600 ∧
    (tick now ⟨⟨tid, some s, acc⟩, some l⟩).1.timer.start_time =
      some (now - 3600) ∧
    s < now - 3600 := by
  have hc : (3600:ℤ) < now - l := by omega
  simp only [tick, if_pos hc]
  refine ⟨trivial, by omega, trivial, by omega⟩

/-- Witness for C3 at a concrete input: started at 0, previous tick at
0, current tick at 7200. -/
theorem tick_idle_gap_clamped_witness :
    (tick 7200 ⟨⟨1, some 0, 0⟩, some 0⟩).2 = 0 + 3600 ∧
    (tick 7200 ⟨⟨1, some 0, 0⟩, some 0⟩).2 ≤ (0 + (0 - 0)) + 3600 ∧
    (tick 7200 ⟨⟨1, some 0, 0⟩, some 0⟩).1.timer.start_time =
      some (7200 - 3600) ∧
    (0:ℤ) < 7200 - 3600 :=
  tick_idle_gap_clamped 1 0 0 0 7200 (by decide) (by decide)

lemma inc_task_preserves_inv (tid : ℤ) (ts : List Task)
    (h : ∀ t ∈ ts, task_inv t) : ∀ t ∈ (inc_task tid ts).1, task_inv t := by
  induction ts with
  | nil => simp [inc_task]
  | cons hd tl ih =>
    have hhd : task_inv hd := h hd (List.mem_cons_self hd tl)
    have htl : ∀ t ∈ tl, task_inv t := fun t ht => h t (List.mem_cons_of_mem hd ht)
    by_cases hc : hd.id = tid
    · simp only [inc_task, if_pos hc]
      intro t ht
      rcases List.mem_cons.mp ht with h | h
      · subst h
        refine ⟨le_min (by linarith [hhd.1]) (by linarith [hhd.1, hhd.2]), min_le_right _ _⟩
      · exact htl t h
    · simp only [inc_task, if_neg hc]
      intro t ht
      rcases List.mem_cons.mp ht with h | h
      · subst h; exact hhd
      · exact ih htl t h

lemma dec_task_preserves_inv (tid : ℤ) (ts : List Task)
    (h : ∀ t ∈ ts, task_inv t) : ∀ t ∈ dec_task tid ts, task_inv t := by
  induction ts with
  | nil => simp [dec_task]
  | cons hd tl ih =>
    have hhd : task_inv hd := h hd (List.mem_cons_self hd tl)
    have htl : ∀ t ∈ tl, task_inv t := fun t ht => h t (List.mem_cons_of_mem hd ht)
    by_cases hc : hd.id = tid
    · simp only [dec_task, if_pos hc]
      intro t ht
      rcases List.mem_cons.mp ht with h | h
      · subst h
        exact ⟨le_max_right _ _, max_le (by linarith [hhd.2]) (by linarith [hhd.1, hhd.2])⟩
      · exact htl t h
    · simp only [dec_task, if_neg hc]
      intro t ht
      rcases List.mem_cons.mp ht with h | h
      · subst h; exact hhd
      · exact ih htl t h

/-- C4: if every task initially satisfies `0 ≤ done ≤ units`, then after
any finite sequence of `inc_task` and `dec_task` commands every task
still does: increment clamps to `units` and decrement clamps to 0. -/
theorem task_done_stays_in_bounds (ops : List TaskOp) (ts : List Task)
    (h : ∀ t ∈ ts, task_inv t) : ∀ t ∈ apply_task_ops ops ts, task_inv t := by
  induction ops generalizing ts with
  | nil => simpa [apply_task_ops] using h
  | cons op rest ih =>
    have hstep : ∀ t ∈ apply_task_op ts op, task_inv t := by
      cases op with
      | inc tid => exact inc_task_preserves_inv tid ts h
      | dec tid => exact dec_task_preserves_inv tid ts h
    simpa [apply_task_ops] using ih (apply_task_op ts op) hstep

/-- Witness for C4 at a concrete input: one increment on a task with
`done = 0`, `units = 2` lands on `done = 1`, inside the bounds. -/
theorem task_done_stays_in_bounds_witness :
    task_inv { id := 1, name := "a", units := 2, done := 1,
               created := 0, archived := false, is_today := true } := by
  have hmem : ({ id := 1, name := "a", units := 2, done := 1,
                 created := 0, archived := false, is_today := true } : Task) ∈
      apply_task_ops [TaskOp.inc 1]
        [{ id := 1, name := "a", units := 2, done := 0,
           created := 0, archived := false, is_today := true }] := by
    simp [apply_task_ops, apply_task_op, inc_task]
  exact task_done_stays_in_bounds [TaskOp.inc 1] _
    (by
      intro t ht
      rcases List.mem_singleton.mp ht with rfl
      exact ⟨by decide, by decide⟩) _ hmem

/-- C5 counterexample: `inc_task` on a task whose `done` already equals
`units` (here both 2) still reports completion — the code tests
`done >= units` after every increment, so the "completed" notification
is re-emitted, contradicting the claimed one-shot behaviour. -/
theorem inc_task_renotifies_at_target :
    (inc_task 1 [{ id := 1, name := "t", units := 2, done := 2,
                   created := 0, archived := false, is_today := true }]).2 = true := by
  norm_num [inc_task]

/-- C5 amended: the "completed" notification is emitted by exactly those
`inc_task` calls after which `done ≥ units`, i.e. whenever
`units ≤ done + 1` held before the call; reaching the target is not a
one-shot event, and every further increment of a completed task emits
the notification again. -/
theorem inc_task_notification_iff (t : Task) :
    (inc_task t.id [t]).2 = true ↔ t.units ≤ t.done + 1 := by
  simp [inc_task, le_min_iff]

/-- C6: a relative reminder with `time_hours = 0.25` scheduled right
after creation at time `T` gets `next_fire_at = T + 900` seconds
persisted; rescheduling (as after a state reload) at any later time
`T'` before that instant keeps `next_fire_at` at exactly `T + 900`
instead of recomputing it from `T'`. -/
theorem schedule_relative_stable (i : ℤ) (nm : String) (T T' : ℚ)
    (h1 : T ≤ T') (h2 : T' < T + 900) :
    (schedule_reminder T
        ⟨i, nm, 1/4, T, true, none, false, true, none⟩).next_fire_at =
      some (T + 900) ∧
    (schedule_reminder T' (schedule_reminder T
        ⟨i, nm, 1/4, T, true, none, false, true, none⟩)).next_fire_at =
      some (T + 900) := by
  have hfirst : schedule_reminder T ⟨i, nm, 1/4, T, true, none, false, true, none⟩ =
      ⟨i, nm, 1/4, T, true, none, false, true, some (T + 900)⟩ := by
    simp [schedule_reminder]
    norm_num
  refine ⟨by rw [hfirst], ?_⟩
  rw [hfirst]
  simp [schedule_reminder, h2]

/-- Witness for C6 at a concrete input: created and scheduled at T = 0,
rescheduled at T' = 100, the persisted fire time stays 0 + 900. -/
theorem schedule_relative_stable_witness :
    (schedule_reminder 0
        ⟨1, "r", 1/4, 0, true, none, false, true, none⟩).next_fire_at =
      some ((0 : ℚ) + 900) ∧
    (schedule_reminder 100 (schedule_reminder 0
        ⟨1, "r", 1/4, 0, true, none, false, true, none⟩)).next_fire_at =
      some ((0 : ℚ) + 900) :=
  schedule_relative_stable 1 "r" 0 100 (by norm_num) (by norm_num)

lemma foldl_max_ge (xs : List ℤ) (x : ℤ) :
    x ≤ xs.foldl max x ∧ ∀ y ∈ xs, y ≤ xs.foldl max x := by
  induction xs generalizing x with
  | nil => simp
  | cons hd tl ih =>
    have h := ih (max x hd)
    refine ⟨le_trans (le_max_left x hd) h.1, ?_⟩
    intro y hy
    rcases List.mem_cons.mp hy with h1 | h1
    · subst h1
      exact le_trans (le_max_right x y) h.1
    · exact h.2 y h1

lemma new_reminder_id_gt (rs : List Reminder) :
    ∀ r ∈ rs, r.id < new_reminder_id rs := by
  intro r hr
  unfold new_reminder_id
  cases hm : rs.map Reminder.id with
  | nil =>
    simp at hm
    subst hm
    simp at hr
  | cons x xs =>
    have hmem : r.id ∈ x :: xs := hm ▸ List.mem_map_of_mem Reminder.id hr
    have hfold := foldl_max_ge xs x
    have hle : r.id ≤ xs.foldl max x := by
      rcases List.mem_cons.mp hmem with h | h
      · subst h
        exact hfold.1
      · exact hfold.2 _ h
    show r.id < xs.foldl max x + 1
    omega

/-- C10: reminder ids can be reused, unlike task ids.  The id chosen by
`add_reminder` is one more than the maximum id currently present (0 when
none), so it is not held by any coexisting reminder; but after deleting
the reminder with the highest id — the one just added — the next call
of `add_reminder` computes that very same id again. -/
theorem reminder_id_reused (rs : List Reminder) (nm : String) (hours : ℚ)
    (isRel : Bool) (now : ℚ) :
    (∀ r ∈ rs, r.id ≠ new_reminder_id rs) ∧
    new_reminder_id (del_reminder (new_reminder_id rs)
        (add_reminder nm hours isRel now rs)) = new_reminder_id rs := by
  have hgt := new_reminder_id_gt rs
  have hne : ∀ r ∈ rs, r.id ≠ new_reminder_id rs :=
    fun r hr => ne_of_lt (hgt r hr)
  refine ⟨hne, ?_⟩
  have hdel : del_reminder (new_reminder_id rs)
      (add_reminder nm hours isRel now rs) = rs := by
    unfold del_reminder add_reminder
    rw [List.filter_append]
    have h1 : rs.filter (fun r => r.id ≠ new_reminder_id rs) = rs :=
      List.filter_eq_self.mpr (fun r hr => by simpa using hne r hr)
    have h2 : ([(⟨new_reminder_id rs, nm, hours, now, true, none, false,
        isRel, none⟩ : Reminder)].filter
          (fun r => r.id ≠ new_reminder_id rs)) = [] := by
      simp
    rw [h1, h2, List.append_nil]
  rw [hdel]

lemma save_load_tasks (st : RegistryState) : (save_load st).tasks = st.tasks := by
  cases st with
  | mk tasks next =>
    cases tasks with
    | nil => rfl
    | cons t ts => rfl

lemma save_load_next_ge (st : RegistryState) :
    st.next_task_id ≤ (save_load st).next_task_id := by
  cases st with
  | mk tasks next =>
    cases tasks with
    | nil => exact le_refl _
    | cons t ts => exact le_max_left _ _

lemma reg_step_preserves_inv (r : RegRun) (op : RegOp)
    (h : reg_inv r) : reg_inv (reg_step r op) := by
  obtain ⟨hpw, hassigned, htasks⟩ := h
  cases op with
  | add nm units now =>
    refine ⟨?_, ?_, ?_⟩
    · simp only [reg_step]
      rw [List.pairwise_append]
      exact ⟨hpw, List.pairwise_singleton _ _,
        fun a ha b hb => (List.mem_singleton.mp hb) ▸ hassigned a ha⟩
    · intro a ha
      simp only [reg_step, add_task] at ha ⊢
      rcases List.mem_append.mp ha with h1 | h1
      · have := hassigned a h1
        omega
      · have h2 := List.mem_singleton.mp h1
        subst h2
        omega
    · intro t ht
      simp only [reg_step, add_task] at ht ⊢
      rcases List.mem_append.mp ht with h1 | h1
      · have := htasks t h1
        omega
      · have h2 := List.mem_singleton.mp h1
        subst h2
        show r.st.next_task_id < r.st.next_task_id + 1
        omega
  | del tid =>
    refine ⟨hpw, hassigned, ?_⟩
    intro t ht
    simp only [reg_step, del_task] at ht ⊢
    exact htasks t (List.mem_of_mem_filter ht)
  | saveload =>
    have hnext : r.st.next_task_id ≤ (save_load r.st).next_task_id :=
      save_load_next_ge r.st
    have htasks2 : (save_load r.st).tasks = r.st.tasks := save_load_tasks r.st
    refine ⟨hpw, ?_, ?_⟩
    · intro a ha
      have := hassigned a ha
      simp only [reg_step]
      omega
    · intro t ht
      simp only [reg_step, htasks2] at ht
      have := htasks t ht
      simp only [reg_step]
      omega

lemma reg_foldl_preserves_inv (ops : List RegOp) (r : RegRun) (h : reg_inv r) :
    reg_inv (ops.foldl reg_step r) := by
  induction ops generalizing r with
  | nil => exact h
  | cons op rest ih => exact ih (reg_step r op) (reg_step_preserves_inv r op h)

lemma reg_run_inv (ops : List RegOp) : reg_inv (reg_run ops) := by
  have hinit : reg_inv ⟨⟨[], 1⟩, []⟩ := by
    refine ⟨List.Pairwise.nil, ?_, ?_⟩ <;> simp
  exact reg_foldl_preserves_inv ops _ hinit

/-- C7: task ids strictly increase and are never reused.  Starting from
the initial state, after any finite sequence of `add_task`, `del_task`
and save/load cycles the history of ids handed out by `add_task` is
strictly increasing in assignment order: every added task got an id
strictly greater than every id assigned before it, across deletions
(which leave `next_task_id` alone) and reloads (which raise
`next_task_id` above the maximum loaded id). -/
theorem task_ids_never_reused (ops : List RegOp) :
    ((reg_run ops).assigned).Pairwise (· < ·) :=
  (reg_run_inv ops).1

/-- C8: loading a document whose task collection holds two records with
all required fields and one record missing `units` yields exactly the
two well-formed tasks (with their optional fields defaulted); the bad
record is dropped individually and neither the remaining task records
nor the other collections are affected. -/
theorem load_drops_only_invalid_task (t1 tb t2 : RawTask)
    (logs : List RawLog) (rems : List RawReminder)
    (h1 : raw_task_valid t1 = true) (h2 : raw_task_valid t2 = true)
    (hb : tb.units = none) :
    apply_loaded_state ⟨[t1, tb, t2], logs, rems⟩ =
      ⟨[raw_task_defaults t1, raw_task_defaults t2],
        load_logs logs, load_reminders rems⟩ := by
  have hbad : raw_task_valid tb = false := by
    simp [raw_task_valid, hb]
  simp [apply_loaded_state, load_tasks, h1, h2, hbad]

/-- Witness for C8 at concrete records: ids 1 and 3 are well-formed,
id 2 misses `units`; only records 1 and 3 survive the load. -/
theorem load_drops_only_invalid_task_witness :
    apply_loaded_state
        ⟨[⟨some 1, some "a", some 2, some 0, none, none⟩,
          ⟨some 2, some "b", none, some 0, none, none⟩,
          ⟨some 3, some "c", some 1, some 1, some true, some false⟩], [], []⟩ =
      ⟨[raw_task_defaults ⟨some 1, some "a", some 2, some 0, none, none⟩,
        raw_task_defaults ⟨some 3, some "c", some 1, some 1, some true, some false⟩],
        load_logs [], load_reminders []⟩ :=
  load_drops_only_invalid_task _ _ _ _ _ (by decide) (by decide) (by decide)

/-- C9: load-time validation of task records looks only at field
presence, never at values: any record with `id`, `name`, `units` and
`done` present is accepted with `done` and `units` unchanged, even when
it violates `0 ≤ done ≤ units` — whether because `done` exceeds `units`
or because `done` is negative — so the invariant is not re-established
on load. -/
theorem load_accepts_invariant_violation (t : RawTask) (u d : ℚ)
    (hid : t.id.isSome = true) (hnm : t.name.isSome = true)
    (hu : t.units = some u) (hd : t.done = some d)
    (hviol : u < d ∨ d < 0) :
    load_tasks [t] = [raw_task_defaults t] ∧
    (raw_task_defaults t).done = some d ∧
    (raw_task_defaults t).units = some u := by
  have hvalid : raw_task_valid t = true := by
    simp [raw_task_valid, hid, hnm, hu, hd]
  refine ⟨by simp [load_tasks, hvalid], ?_, ?_⟩
  · simp [raw_task_defaults, hd]
  · simp [raw_task_defaults, hu]

/-- Witness for C9 at two concrete records, one per violation kind:
`done = 5` exceeding `units = 2`, and negative `done = -1` with
`units = 2`; both records are loaded unchanged. -/
theorem load_accepts_invariant_violation_witness :
    (load_tasks [⟨some 1, some "a", some 2, some 5, none, none⟩] =
      [raw_task_defaults ⟨some 1, some "a", some 2, some 5, none, none⟩] ∧
    (raw_task_defaults ⟨some 1, some "a", some 2, some 5, none, none⟩).done =
      some 5 ∧
    (raw_task_defaults ⟨some 1, some "a", some 2, some 5, none, none⟩).units =
      some 2) ∧
    (load_tasks [⟨some 1, some "b", some 2, some (-1), none, none⟩] =
      [raw_task_defaults ⟨some 1, some "b", some 2, some (-1), none, none⟩] ∧
    (raw_task_defaults ⟨some 1, some "b", some 2, some (-1), none, none⟩).done =
      some (-1) ∧
    (raw_task_defaults ⟨some 1, some "b", some 2, some (-1), none, none⟩).units =
      some 2) :=
  ⟨load_accepts_invariant_violation _ 2 5 (by decide) (by decide) (by decide)
      (by decide) (Or.inl (by decide)),
    load_accepts_invariant_violation _ 2 (-1) (by decide) (by decide) (by decide)
      (by decide) (Or.inr (by decide))⟩

end Tracker
